import Mathlib

/-!
# Verification of the d3-relationshipgraph layout engine

A shallow embedding of `src/index.js` (the relationship-graph widget):
the input validator `verifyJson`, the string helper `abbreviate`, the
constructor's configuration defaulting, the grouping-and-layout engine of
`generate` (parent sort followed by the single-pass row/index assignment),
the renderer's width/height bookkeeping, and the tooltip adapter's field
filter.

Conventions of the embedding:
* A JS record is `RawChild` before validation (`undefined` fields are
  `none`) and `Child` afterwards.
* JS string comparison (`<` / `>` in the sort comparator, line 238-246)
  is lexicographic; it is modelled on the character list `String.data`
  with the lexicographic order of `List Char`, which matches JS for all
  basic-plane strings.
* `Array.prototype.sort` with comparator `c` keeps `a` before `b` exactly
  when `c a b <= 0`, i.e. `not (a.parent > b.parent)`; modern engines
  sort stably, so the sort is modelled as a stable sort
  (`List.insertionSort`) by that relation (`parentLe`).
* In-place mutation of the caller's array (rows and indices written onto
  the records, the array reordered) is modelled by returning the
  annotated, reordered list: `layoutRecords` produces the records in
  their post-`generate` order, each paired with its `(row, index)`.
-/

namespace RelGraph

/-- JS truthiness of `x || d` when `x` is a boolean argument that may be
`undefined` (`none`): `false` and `undefined` are both falsy, so they fall
through to the default. Models line 102 of the source
(`showTooltips || true`). -/
def jsOrBool (x : Option Bool) (d : Bool) : Bool :=
  match x with
  | some true => true
  | _ => d

/-- JS truthiness of `x || d` for a numeric argument: `0` and `undefined`
are falsy. Models line 103 (`maxChildCount || 0`). -/
def jsOrNat (x : Option Nat) (d : Nat) : Nat :=
  match x with
  | some n => if n = 0 then d else n
  | none => d

/-- The configuration assembled by the `RelationshipGraph` constructor
(source lines 99-106). `onClick` and the selection are view glue and
carry no verifiable data, so they are not modelled. -/
structure GraphConfig where
  blockSize : Nat
  showTooltips : Bool
  maxChildCount : Nat
  showKeys : Bool
deriving DecidableEq, Repr

/-- The constructor: `blockSize: 24`, `showTooltips: showTooltips || true`,
`maxChildCount: maxChildCount || 0`, `showKeys: true`. -/
def mkConfig (showTooltips : Option Bool) (maxChildCount : Option Nat) : GraphConfig :=
  { blockSize := 24
    showTooltips := jsOrBool showTooltips true
    maxChildCount := jsOrNat maxChildCount 0
    showKeys := true }

/-- `String.prototype.abbreviate` (source lines 76-78):
`(this.length >= 25) ? this.substring(0, 25) + '...' : this`. -/
def abbreviate (s : String) : String :=
  if 25 ≤ s.length then String.mk (s.data.take 25) ++ "..." else s

/-! ## The input validator (`verifyJson`, source lines 202-219) -/

/-- A record as the caller supplies it: any field may be missing
(`undefined`, modelled as `none`). Display-only fields do not influence
validation or layout and are not modelled here. -/
structure RawChild where
  parent : Option String
  color : Option Int
  parentColor : Option Int
deriving DecidableEq, Repr

/-- The four strings thrown by `verifyJson`, as an error type:
`'JSON cannot be empty.'`, `'Child does not have a parent.'`,
`'Child color is unsupported.'`, `'Parent color is unsupported.'`. -/
inductive VerifyError where
  | emptyInput
  | missingParent
  | invalidColor
  | invalidParentColor
deriving DecidableEq, Repr

/-- The per-record checks of the `forEach` body (source lines 207-216),
in source order: missing parent, then color `undefined`/`> 3`/`< 0`,
then parentColor `undefined`/`> 4`/`< 0`. -/
def verifyChild (e : RawChild) : Except VerifyError Unit :=
  match e.parent with
  | none => .error .missingParent
  | some _ =>
    match e.color with
    | none => .error .invalidColor
    | some c =>
      if 3 < c ∨ c < 0 then .error .invalidColor
      else
        match e.parentColor with
        | none => .error .invalidParentColor
        | some d =>
          if 4 < d ∨ d < 0 then .error .invalidParentColor
          else .ok ()

/-- The `forEach` loop: the first failing record's error aborts the run. -/
def verifyList : List RawChild → Except VerifyError Unit
  | [] => .ok ()
  | e :: rest =>
    match verifyChild e with
    | .error err => .error err
    | .ok _ => verifyList rest

/-- `RelationshipGraph.prototype.verifyJson`: empty check
(`json === undefined || json.length === 0`), then the per-record loop,
then `return true`. -/
def verifyJson (json : Option (List RawChild)) : Except VerifyError Bool :=
  match json with
  | none => .error .emptyInput
  | some l =>
    if l.length = 0 then .error .emptyInput
    else
      match verifyList l with
      | .error err => .error err
      | .ok _ => .ok true

/-- A record passing all three per-record checks. -/
def recValid (e : RawChild) : Prop :=
  e.parent ≠ none ∧
  (∃ c, e.color = some c ∧ 0 ≤ c ∧ c ≤ 3) ∧
  (∃ d, e.parentColor = some d ∧ 0 ≤ d ∧ d ≤ 4)

/-! ## The tooltip adapter (`createTooltip`, source lines 123-158) -/

/-- The uppercased field names excluded from tooltip display
(source line 131). -/
def hiddenKeys : List String := ["ROW", "INDEX", "COLOR", "PARENTCOLOR", "PARENT"]

/-- JS `String.prototype.toUpperCase`, character by character. -/
def toUpperStr (s : String) : String := String.mk (s.data.map Char.toUpper)

/-- The table built by the tooltip's `html` callback: one row per
non-hidden field, in field order; the key cell is present only when
`showKeys` is set (source lines 134-154). A row is its list of cell
texts. -/
def tooltipRows (showKeys : Bool) (obj : List (String × String)) : List (List String) :=
  obj.filterMap (fun kv =>
    if hiddenKeys.contains (toUpperStr kv.1) then none
    else some (if showKeys then [kv.1, kv.2] else [kv.2]))

/-! ## The grouping and layout engine (`generate`, source lines 225-299) -/

/-- A record once validation has passed: `parent`, `color` and
`parentColor` are present. Further display-only fields play no part in
the layout. -/
structure Child where
  parent : String
  color : Int
  parentColor : Int
deriving DecidableEq, Repr

/-- The sort comparator of source lines 238-246 keeps `a` before `b`
exactly when it returns a value `<= 0`, i.e. when
`not (a.parent > b.parent)`. JS compares strings lexicographically;
this is the same relation on the character lists. -/
def parentLe (a b : Child) : Prop := ¬ b.parent.data < a.parent.data

instance parentLe.decRel : DecidableRel parentLe := fun _ _ => instDecidableNot

instance parentLe.total : IsTotal Child parentLe :=
  ⟨fun a b => by
    simp only [parentLe, not_lt]
    exact le_total a.parent.data b.parent.data⟩

instance parentLe.trans : IsTrans Child parentLe :=
  ⟨fun a b c hab hbc => by
    simp only [parentLe, not_lt] at hab hbc ⊢
    exact le_trans hab hbc⟩

/-- `json.sort(comparator)` of source lines 238-246: a stable sort by
parent. -/
def sortByParent (json : List Child) : List Child :=
  List.insertionSort parentLe json

/-- The mutable loop state of the row/index assignment pass (source
lines 227-229): `row`, `index` and `previousParent` (`null` before the
first record). -/
structure LayoutState where
  row : Nat
  index : Nat
  previousParent : Option String
deriving DecidableEq, Repr

/-- One iteration of the `forEach` body of source lines 278-299, for a
record with parent `p`: the `(row, index)` written onto the record,
paired with the state for the next iteration. `m` is
`calculatedMaxChildren`. -/
def assignStep (m : Nat) (s : LayoutState) (p : String) : (Nat × Nat) × LayoutState :=
  if s.previousParent ≠ none ∧ s.previousParent ≠ some p then
    ((s.row + 1, 1), ⟨s.row + 1, 2, some p⟩)
  else
    if s.index = m + 1 then
      ((s.row + 1, 1), ⟨s.row + 1, 2, some p⟩)
    else
      ((s.row, s.index), ⟨s.row, s.index + 1, some p⟩)

/-- The whole assignment pass: every record of `cs`, in order, paired
with the `(row, index)` the loop writes onto it. -/
def assignAll (m : Nat) (s : LayoutState) : List Child → List (Child × Nat × Nat)
  | [] => []
  | c :: cs =>
    (c, (assignStep m s c.parent).1) :: assignAll m (assignStep m s c.parent).2 cs

/-- The loop state on entry: `row = 1`, `index = 1`,
`previousParent = null`. -/
def initState : LayoutState := ⟨1, 1, none⟩

/-- The layout part of `generate` for `calculatedMaxChildren = m`: sort
the records by parent, then run the assignment pass. The result is the
caller's array as `generate` leaves it: reordered, each record annotated
with its `(row, index)`. -/
def layoutRecords (m : Nat) (json : List Child) : List (Child × Nat × Nat) :=
  assignAll m initState (sortByParent json)

/-- The rows (in order of appearance) assigned to the records of parent
`p`. -/
def rowsOfParent (m : Nat) (json : List Child) (p : String) : List Nat :=
  ((layoutRecords m json).filter (fun e => decide (e.1.parent = p))).map (fun e => e.2.1)

/-- The `(row, index)` a given record object ends up with (its first
occurrence, for inputs without duplicate records). -/
def assignOf (m : Nat) (json : List Child) (c : Child) : Option (Nat × Nat) :=
  ((layoutRecords m json).find? (fun e => decide (e.1 = c))).map Prod.snd

/-! ## The renderer's size bookkeeping (source lines 338-373) -/

/-- A block's x coordinate (source line 340):
`width + ((obj.index - 1) * blockSize)`. -/
def blockX (blockSize width idx : Nat) : Nat := width + (idx - 1) * blockSize

/-- What the `x` attribute callback does to `maxWidth` over the data
sequence (source line 341):
`maxWidth += ((x + blockSize) > maxWidth) ? (x + blockSize) : 0`. -/
def maxWidthFold (blockSize width : Nat) (rs : List (Nat × Nat)) : Nat :=
  rs.foldl
    (fun mw ri =>
      if blockX blockSize width ri.2 + blockSize > mw
      then mw + (blockX blockSize width ri.2 + blockSize)
      else mw)
    0

/-- The spec's reading of the same loop: a running maximum of the drawn
extents `x + blockSize`. -/
def maxWidthSpec (blockSize width : Nat) (rs : List (Nat × Nat)) : Nat :=
  rs.foldl (fun mw ri => max mw (blockX blockSize width ri.2 + blockSize)) 0

/-- The final canvas size (source lines 372-373):
`(maxWidth + 15, maxHeight + 15)`. -/
def svgSize (maxWidth maxHeight : Nat) : Nat × Nat := (maxWidth + 15, maxHeight + 15)

/-! ## Properties of the validator -/

lemma verifyChild_ok_iff (e : RawChild) : verifyChild e = .ok () ↔ recValid e := by
  rcases e with ⟨p, c, pc⟩
  unfold verifyChild recValid
  cases p <;> cases c <;> cases pc <;> simp
  all_goals try (split_ifs <;> simp_all)
  all_goals omega

lemma verifyChild_missingParent (e : RawChild) :
    verifyChild e = .error .missingParent → e.parent = none := by
  rcases e with ⟨p, c, pc⟩
  unfold verifyChild
  cases p <;> cases c <;> cases pc <;> simp
  all_goals try (split_ifs <;> simp_all)
  all_goals omega

lemma verifyChild_invalidColor (e : RawChild) :
    verifyChild e = .error .invalidColor →
      e.color = none ∨ ∃ c, e.color = some c ∧ (3 < c ∨ c < 0) := by
  rcases e with ⟨p, c, pc⟩
  unfold verifyChild
  cases p <;> cases c <;> cases pc <;> simp
  all_goals try (split_ifs <;> simp_all)
  all_goals omega

lemma verifyChild_invalidParentColor (e : RawChild) :
    verifyChild e = .error .invalidParentColor →
      e.parentColor = none ∨ ∃ d, e.parentColor = some d ∧ (4 < d ∨ d < 0) := by
  rcases e with ⟨p, c, pc⟩
  unfold verifyChild
  cases p <;> cases c <;> cases pc <;> simp
  all_goals try (split_ifs <;> simp_all)
  all_goals omega

lemma verifyChild_ne_empty (e : RawChild) : verifyChild e ≠ .error .emptyInput := by
  rcases e with ⟨p, c, pc⟩
  unfold verifyChild
  cases p <;> cases c <;> cases pc <;> simp
  all_goals try (split_ifs <;> simp_all)
  all_goals omega

lemma verifyList_ok_iff (l : List RawChild) :
    verifyList l = .ok () ↔ ∀ e ∈ l, recValid e := by
  induction l with
  | nil => simp [verifyList]
  | cons e r ih =>
    rw [verifyList]
    cases hve : verifyChild e with
    | error err =>
      simp only [List.mem_cons]
      constructor
      · intro h; exact absurd h (by simp)
      · intro h
        have : recValid e := h e (Or.inl rfl)
        rw [← verifyChild_ok_iff] at this
        rw [this] at hve
        exact absurd hve (by simp)
    | ok u =>
      cases u
      rw [ih]
      have hv : recValid e := (verifyChild_ok_iff e).mp hve
      simp only [List.mem_cons]
      constructor
      · rintro h x (rfl | hx)
        · exact hv
        · exact h x hx
      · intro h x hx; exact h x (Or.inr hx)

lemma verifyList_error (l : List RawChild) (err : VerifyError) :
    verifyList l = .error err → ∃ e ∈ l, verifyChild e = .error err := by
  induction l with
  | nil => simp [verifyList]
  | cons e r ih =>
    rw [verifyList]
    cases hve : verifyChild e with
    | error e2 =>
      intro h
      have : e2 = err := by simpa using h
      exact ⟨e, List.mem_cons_self e r, this ▸ hve⟩
    | ok u =>
      intro h
      obtain ⟨x, hx, hvx⟩ := ih h
      exact ⟨x, List.mem_cons_of_mem e hx, hvx⟩

/-- C2: `verifyJson` raises exactly one of four errors — empty-input when
the record sequence is absent or has zero length, missing-parent when
some record lacks a parent field, invalid-color when some record's color
is absent or outside `[0,3]`, invalid-parent-color when some record's
parentColor is absent or outside `[0,4]` — and returns `true` (it is a
pure function, so it has no side effects) if and only if none of these
conditions holds. -/
theorem verifyJson_spec (json : Option (List RawChild)) :
    (verifyJson json = .ok true ↔
      ∃ l, json = some l ∧ l ≠ [] ∧ ∀ e ∈ l, recValid e) ∧
    (verifyJson json = .error .emptyInput ↔ json = none ∨ json = some []) ∧
    (verifyJson json = .error .missingParent →
      ∃ l, json = some l ∧ ∃ e ∈ l, e.parent = none) ∧
    (verifyJson json = .error .invalidColor →
      ∃ l, json = some l ∧ ∃ e ∈ l,
        e.color = none ∨ ∃ c, e.color = some c ∧ (3 < c ∨ c < 0)) ∧
    (verifyJson json = .error .invalidParentColor →
      ∃ l, json = some l ∧ ∃ e ∈ l,
        e.parentColor = none ∨ ∃ d, e.parentColor = some d ∧ (4 < d ∨ d < 0)) ∧
    (∀ b, verifyJson json = .ok b → b = true) := by
  cases json with
  | none =>
    refine ⟨by simp [verifyJson], by simp [verifyJson], ?_, ?_, ?_, ?_⟩ <;>
      simp [verifyJson]
  | some l =>
    by_cases hl : l.length = 0
    · have hnil : l = [] := List.length_eq_zero.mp hl
      subst hnil
      refine ⟨by simp [verifyJson], by simp [verifyJson], ?_, ?_, ?_, ?_⟩ <;>
        simp [verifyJson]
    · have hne : l ≠ [] := by
        intro h; exact hl (by simp [h])
      rw [show verifyJson (some l) = (match verifyList l with
            | .error err => .error err
            | .ok _ => .ok true) by
          simp [verifyJson, hl]]
      cases hvl : verifyList l with
      | error err =>
        have hmem := verifyList_error l err hvl
        refine ⟨?_, ?_, ?_, ?_, ?_, ?_⟩
        · simp only [reduceCtorEq, false_iff]
          rintro ⟨l2, hl2, -, hval⟩
          obtain rfl : l = l2 := by simpa using hl2
          have : verifyList l = .ok () := (verifyList_ok_iff l).mpr hval
          rw [this] at hvl; exact absurd hvl (by simp)
        · simp only [Except.error.injEq]
          constructor
          · rintro rfl
            obtain ⟨e, -, hve⟩ := hmem
            exact absurd hve (verifyChild_ne_empty e)
          · rintro (h | h) <;> simp at h
            exact absurd h hne
        · intro h
          have : err = .missingParent := by simpa using h
          subst this
          obtain ⟨e, he, hve⟩ := hmem
          exact ⟨l, rfl, e, he, verifyChild_missingParent e hve⟩
        · intro h
          have : err = .invalidColor := by simpa using h
          subst this
          obtain ⟨e, he, hve⟩ := hmem
          exact ⟨l, rfl, e, he, verifyChild_invalidColor e hve⟩
        · intro h
          have : err = .invalidParentColor := by simpa using h
          subst this
          obtain ⟨e, he, hve⟩ := hmem
          exact ⟨l, rfl, e, he, verifyChild_invalidParentColor e hve⟩
        · intro b hb; exact absurd hb (by simp)
      | ok u =>
        cases u
        have hval := (verifyList_ok_iff l).mp hvl
        refine ⟨?_, by simp [hne], by simp, by simp, by simp, by simp⟩
        simp only [Except.ok.injEq, true_iff]
        exact ⟨l, rfl, hne, hval⟩

/-! ## The abbreviation helper -/

/-- C6 (counterexample): at a 25-character name the claim fails — the
name is not longer than 25 characters, yet `abbreviate` truncates it
(the source guard is `>= 25`, not `> 25`). -/
theorem abbreviate_at_25_cex :
    ("aaaaaaaaaaaaaaaaaaaaaaaaa" : String).length = 25 ∧
    abbreviate "aaaaaaaaaaaaaaaaaaaaaaaaa" ≠ "aaaaaaaaaaaaaaaaaaaaaaaaa" ∧
    abbreviate "aaaaaaaaaaaaaaaaaaaaaaaaa" = "aaaaaaaaaaaaaaaaaaaaaaaaa..." := by
  decide

/-- C6 (amended): `abbreviate` truncates to the first 25 characters plus
the ellipsis marker exactly when the name is at least 25 characters long
(so a 30-character name becomes 25 characters plus the marker, and a
24-character name is unchanged); names of at most 24 characters are
returned unchanged. -/
theorem abbreviate_truncation (s : String) :
    (25 ≤ s.length →
      (abbreviate s).data = s.data.take 25 ++ "...".data ∧ (abbreviate s).length = 28) ∧
    (s.length < 25 → abbreviate s = s) := by
  have hd : s.length = s.data.length := rfl
  constructor
  · intro h
    rw [abbreviate, if_pos h]
    refine ⟨rfl, ?_⟩
    show (s.data.take 25 ++ "...".data).length = 28
    have h3 : ("..." : String).data.length = 3 := rfl
    rw [List.length_append, List.length_take, h3]
    omega
  · intro h
    rw [abbreviate, if_neg (by omega)]

/-! ## The constructor's tooltip flag -/

/-- C7: the code does not honor `showTooltips = false`. The constructor
stores `showTooltips || true`, which is `true` for every caller input —
in particular, passing `false` leaves `config.showTooltips` equal to
`true`, so tooltips stay enabled. (The claim is right about the omitted
case only.) -/
theorem showTooltips_false_ignored :
    (mkConfig (some false) none).showTooltips = true ∧
    (mkConfig none none).showTooltips = true ∧
    (mkConfig (some true) none).showTooltips = true := by
  decide

/-! ## The renderer's width bookkeeping -/

/-- C8: `maxWidth` is not a running maximum. On two blocks of one parent
(indices 1 and 2, blockSize 24, left offset 0) the extents are 24 and
48; the source's `maxWidth += extent` accumulation ends at 72 where a
running maximum would end at 48, and the canvas is sized from the
accumulated value. -/
theorem maxWidth_accumulates_not_max :
    maxWidthFold 24 0 ((layoutRecords 2 [⟨"A", 0, 0⟩, ⟨"A", 1, 0⟩]).map Prod.snd) = 72 ∧
    maxWidthSpec 24 0 ((layoutRecords 2 [⟨"A", 0, 0⟩, ⟨"A", 1, 0⟩]).map Prod.snd) = 48 ∧
    svgSize 72 0 ≠ svgSize 48 0 := by
  decide

/-! ## The tooltip adapter -/

/-- C9: the rendered tooltip table has an entry for a field exactly when
the field's uppercased name is not one of ROW, INDEX, COLOR, PARENTCOLOR,
PARENT (so the comparison is case-insensitive regardless of the record's
key casing); every displayed row carries a key cell exactly when
`showKeys` is set. -/
theorem tooltip_hidden_fields (showKeys : Bool) (obj : List (String × String)) :
    (∀ kv ∈ obj, hiddenKeys.contains (toUpperStr kv.1) = false →
      (if showKeys then [kv.1, kv.2] else [kv.2]) ∈ tooltipRows showKeys obj) ∧
    (∀ r ∈ tooltipRows showKeys obj, ∃ kv ∈ obj,
      hiddenKeys.contains (toUpperStr kv.1) = false ∧
      r = (if showKeys then [kv.1, kv.2] else [kv.2])) ∧
    (∀ r ∈ tooltipRows showKeys obj, r.length = if showKeys then 2 else 1) ∧
    (∀ k : String, hiddenKeys.contains (toUpperStr k) = true ↔
      (toUpperStr k = "ROW" ∨ toUpperStr k = "INDEX" ∨ toUpperStr k = "COLOR" ∨
       toUpperStr k = "PARENTCOLOR" ∨ toUpperStr k = "PARENT")) := by
  have main : ∀ r ∈ tooltipRows showKeys obj, ∃ kv ∈ obj,
      hiddenKeys.contains (toUpperStr kv.1) = false ∧
      r = (if showKeys then [kv.1, kv.2] else [kv.2]) := by
    intro r hr
    simp only [tooltipRows, List.mem_filterMap] at hr
    obtain ⟨kv, hkv, hf⟩ := hr
    cases hc : hiddenKeys.contains (toUpperStr kv.1) with
    | true => rw [hc] at hf; simp at hf
    | false =>
      rw [hc] at hf
      simp only [if_neg Bool.false_ne_true] at hf
      exact ⟨kv, hkv, hc, by simpa using hf.symm⟩
  refine ⟨?_, main, ?_, ?_⟩
  · intro kv hkv h
    simp only [tooltipRows, List.mem_filterMap]
    exact ⟨kv, hkv, by rw [h]; simp⟩
  · intro r hr
    obtain ⟨kv, -, -, rfl⟩ := main r hr
    cases showKeys <;> simp
  · intro k
    rw [List.elem_iff]
    simp [hiddenKeys]

/-! ## Invariants of the assignment loop -/

lemma assignStep_state (m : Nat) (s : LayoutState) (p : String) :
    (assignStep m s p).2.row = (assignStep m s p).1.1 ∧
    (assignStep m s p).2.index = (assignStep m s p).1.2 + 1 ∧
    (assignStep m s p).2.previousParent = some p := by
  unfold assignStep
  by_cases hc : s.previousParent ≠ none ∧ s.previousParent ≠ some p
  · rw [if_pos hc]; exact ⟨rfl, rfl, rfl⟩
  · rw [if_neg hc]
    by_cases hw : s.index = m + 1
    · rw [if_pos hw]; exact ⟨rfl, rfl, rfl⟩
    · rw [if_neg hw]; exact ⟨rfl, rfl, rfl⟩

lemma assignStep_bounds (m : Nat) (hm : 1 ≤ m) (s : LayoutState) (p : String)
    (h1 : 1 ≤ s.row) (h2 : 1 ≤ s.index) (h3 : s.index ≤ m + 1) :
    1 ≤ (assignStep m s p).1.1 ∧ 1 ≤ (assignStep m s p).1.2 ∧
    (assignStep m s p).1.2 ≤ m ∧ 1 ≤ (assignStep m s p).2.row ∧
    1 ≤ (assignStep m s p).2.index ∧ (assignStep m s p).2.index ≤ m + 1 := by
  unfold assignStep
  by_cases hc : s.previousParent ≠ none ∧ s.previousParent ≠ some p
  · rw [if_pos hc]; dsimp only; omega
  · rw [if_neg hc]
    by_cases hw : s.index = m + 1
    · rw [if_pos hw]; dsimp only; omega
    · rw [if_neg hw]; dsimp only; omega

lemma assignAll_bounds (m : Nat) (hm : 1 ≤ m) (cs : List Child) :
    ∀ s : LayoutState, 1 ≤ s.row → 1 ≤ s.index → s.index ≤ m + 1 →
      ∀ e ∈ assignAll m s cs, 1 ≤ e.2.1 ∧ 1 ≤ e.2.2 ∧ e.2.2 ≤ m := by
  induction cs with
  | nil => intro s _ _ _ e he; simp [assignAll] at he
  | cons c t ih =>
    intro s h1 h2 h3 e he
    obtain ⟨o1, o2, o3, n1, n2, n3⟩ := assignStep_bounds m hm s c.parent h1 h2 h3
    rw [assignAll] at he
    rcases List.mem_cons.mp he with rfl | he2
    · exact ⟨o1, o2, o3⟩
    · exact ih _ n1 n2 n3 e he2

/-- C1: for every valid, non-empty record array and every
`calculatedMaxChildren >= 1`, after the row/index assignment pass of
`generate` every record has `row >= 1` and
`1 <= index <= calculatedMaxChildren`. -/
theorem layout_row_index_bounds (m : Nat) (hm : 1 ≤ m) (json : List Child)
    (hne : json ≠ []) :
    ∀ e ∈ layoutRecords m json, 1 ≤ e.2.1 ∧ 1 ≤ e.2.2 ∧ e.2.2 ≤ m :=
  fun e he =>
    assignAll_bounds m hm (sortByParent json) initState
      (by simp [initState]) (by simp [initState]) (by simp [initState]) e he

/-- Witness for C1 at a concrete input: three records of two parents,
`calculatedMaxChildren = 2`. -/
theorem layout_row_index_bounds_witness :
    (1 : Nat) ≤ 2 ∧
    ∀ e ∈ layoutRecords 2 [⟨"B", 1, 1⟩, ⟨"A", 0, 0⟩, ⟨"A", 2, 1⟩],
      1 ≤ e.2.1 ∧ 1 ≤ e.2.2 ∧ e.2.2 ≤ 2 :=
  ⟨by decide, layout_row_index_bounds 2 (by decide) _ (by decide)⟩

/-! ## The step relation between consecutive annotated records -/

/-- What one loop iteration guarantees between two consecutive annotated
records: a parent change forces `(row + 1, 1)`; the row advances by zero
or one; `(row, index)` strictly increases lexicographically. -/
def stepRel (a b : Child × Nat × Nat) : Prop :=
  (a.1.parent ≠ b.1.parent → b.2 = (a.2.1 + 1, 1)) ∧
  (b.2.1 = a.2.1 ∨ b.2.1 = a.2.1 + 1) ∧
  (a.2.1 < b.2.1 ∨ (a.2.1 = b.2.1 ∧ a.2.2 < b.2.2))

lemma stepRel_next (m : Nat) (s2 : LayoutState) (c c2 : Child) (o1 : Nat × Nat)
    (hrow : s2.row = o1.1) (hidx : s2.index = o1.2 + 1)
    (hprev : s2.previousParent = some c.parent) :
    stepRel (c, o1) (c2, (assignStep m s2 c2.parent).1) := by
  unfold stepRel assignStep
  by_cases hpar : c.parent = c2.parent
  · have hcond : ¬ (s2.previousParent ≠ none ∧ s2.previousParent ≠ some c2.parent) := by
      rw [hprev, hpar]; simp
    rw [if_neg hcond]
    by_cases hw : s2.index = m + 1
    · rw [if_pos hw]
      refine ⟨fun h => absurd hpar h, ?_⟩
      dsimp only
      omega
    · rw [if_neg hw]
      refine ⟨fun h => absurd hpar h, ?_⟩
      dsimp only
      omega
  · have hcond : s2.previousParent ≠ none ∧ s2.previousParent ≠ some c2.parent := by
      rw [hprev]
      exact ⟨by simp, by simpa using hpar⟩
    rw [if_pos hcond]
    refine ⟨fun _ => ?_, ?_⟩
    · dsimp only
      rw [hrow]
    · dsimp only
      omega

lemma assignAll_chain (m : Nat) (cs : List Child) :
    ∀ s : LayoutState, List.Chain' stepRel (assignAll m s cs) := by
  induction cs with
  | nil => intro s; exact List.chain'_nil
  | cons c t ih =>
    intro s
    cases t with
    | nil => exact List.chain'_singleton _
    | cons c2 t2 =>
      rw [show assignAll m s (c :: c2 :: t2)
          = (c, (assignStep m s c.parent).1) ::
            (c2, (assignStep m (assignStep m s c.parent).2 c2.parent).1) ::
            assignAll m (assignStep m (assignStep m s c.parent).2 c2.parent).2 t2
          from rfl]
      rw [List.chain'_cons]
      constructor
      · obtain ⟨hrow, hidx, hprev⟩ := assignStep_state m s c.parent
        exact stepRel_next m _ c c2 _ hrow hidx hprev
      · exact ih (assignStep m s c.parent).2

lemma layout_chain (m : Nat) (json : List Child) :
    List.Chain' stepRel (layoutRecords m json) :=
  assignAll_chain m (sortByParent json) initState

/-- C3: after the parent sort, whenever two consecutive records have
different parent strings, the second one is assigned a strictly larger
row and `index = 1`: a new parent always starts a new row. -/
theorem layout_parent_change_new_row (m : Nat) (json : List Child) (i : Nat)
    (h : i + 1 < (layoutRecords m json).length)
    (hp : ((layoutRecords m json).get ⟨i, Nat.lt_of_succ_lt h⟩).1.parent ≠
          ((layoutRecords m json).get ⟨i + 1, h⟩).1.parent) :
    ((layoutRecords m json).get ⟨i, Nat.lt_of_succ_lt h⟩).2.1 <
      ((layoutRecords m json).get ⟨i + 1, h⟩).2.1 ∧
    ((layoutRecords m json).get ⟨i + 1, h⟩).2.2 = 1 := by
  have hch := layout_chain m json
  rw [List.chain'_iff_get] at hch
  have hi : i < (layoutRecords m json).length - 1 := by omega
  obtain ⟨hchg, -, -⟩ := hch i hi
  have hb := hchg hp
  exact ⟨lt_of_lt_of_eq (Nat.lt_succ_self _) (congrArg Prod.fst hb).symm,
    congrArg Prod.snd hb⟩

/-- Witness for C3 at a concrete input: two records of different parents,
positions 0 and 1 after the sort. -/
theorem layout_parent_change_new_row_witness :
    ((layoutRecords 2 [⟨"B", 1, 1⟩, ⟨"A", 0, 0⟩]).get ⟨0, by decide⟩).2.1 <
      ((layoutRecords 2 [⟨"B", 1, 1⟩, ⟨"A", 0, 0⟩]).get ⟨1, by decide⟩).2.1 ∧
    ((layoutRecords 2 [⟨"B", 1, 1⟩, ⟨"A", 0, 0⟩]).get ⟨1, by decide⟩).2.2 = 1 :=
  layout_parent_change_new_row 2 [⟨"B", 1, 1⟩, ⟨"A", 0, 0⟩] 0 (by decide) (by decide)

/-! ## Distinctness and contiguity of the assigned positions -/

/-- Strict lexicographic order on the assigned `(row, index)` pairs. -/
def lexRel (a b : Child × Nat × Nat) : Prop :=
  a.2.1 < b.2.1 ∨ (a.2.1 = b.2.1 ∧ a.2.2 < b.2.2)

instance lexRel.trans : IsTrans (Child × Nat × Nat) lexRel :=
  ⟨fun a b c hab hbc => by unfold lexRel at hab hbc ⊢; omega⟩

lemma layout_pairwise_lex (m : Nat) (json : List Child) :
    List.Pairwise lexRel (layoutRecords m json) := by
  have hch : List.Chain' lexRel (layoutRecords m json) :=
    (layout_chain m json).imp (fun _ _ h => h.2.2)
  exact List.chain'_iff_pairwise.mp hch

lemma assignAll_map_fst (m : Nat) (cs : List Child) :
    ∀ s : LayoutState, (assignAll m s cs).map Prod.fst = cs := by
  induction cs with
  | nil => intro s; rfl
  | cons c t ih => intro s; simp only [assignAll, List.map_cons, ih]

lemma sortByParent_pairwise (json : List Child) :
    List.Pairwise parentLe (sortByParent json) :=
  List.sorted_insertionSort parentLe json

lemma layout_pairwise_parent (m : Nat) (json : List Child) :
    List.Pairwise (fun a b : Child × Nat × Nat => parentLe a.1 b.1)
      (layoutRecords m json) := by
  have h := sortByParent_pairwise json
  rw [← assignAll_map_fst m (sortByParent json) initState] at h
  exact List.pairwise_map.mp h

/-- Along the annotated list the row number advances by zero or one. -/
def rowStep (x y : Nat) : Prop := y = x ∨ y = x + 1

lemma stringData_inj (a b : String) (h : a.data = b.data) : a = b := by
  cases a; cases b; exact congrArg String.mk h

lemma chain_rows_filter (p : String) :
    ∀ l : List (Child × Nat × Nat), List.Chain' stepRel l →
      List.Pairwise (fun a b => parentLe a.1 b.1) l →
      List.Chain' rowStep
        ((l.filter (fun e => decide (e.1.parent = p))).map (fun e => e.2.1)) := by
  intro l
  induction l with
  | nil => intro _ _; exact List.chain'_nil
  | cons e t ih =>
    intro hch hpw
    rw [List.chain'_cons'] at hch
    obtain ⟨hhd, hct⟩ := hch
    rw [List.pairwise_cons] at hpw
    obtain ⟨hpe, hpt⟩ := hpw
    by_cases hep : e.1.parent = p
    · rw [List.filter_cons_of_pos (by simp [hep]), List.map_cons, List.chain'_cons']
      refine ⟨?_, ih hct hpt⟩
      intro y hy
      cases t with
      | nil => simp at hy
      | cons e2 t2 =>
        by_cases h2 : e2.1.parent = p
        · rw [List.filter_cons_of_pos (by simp [h2]), List.map_cons] at hy
          simp only [List.head?_cons, Option.mem_def, Option.some.injEq] at hy
          subst hy
          have hse : stepRel e e2 := hhd e2 (by simp)
          exact hse.2.1
        · have hnone :
              List.filter (fun x => decide (x.1.parent = p)) (e2 :: t2) = [] := by
            rw [List.filter_eq_nil_iff]
            intro a ha
            simp only [decide_eq_true_eq]
            rcases List.mem_cons.mp ha with rfl | ha2
            · exact h2
            · intro hap
              obtain ⟨hpe2, -⟩ := List.pairwise_cons.mp hpt
              have h1 : e.1.parent.data ≤ e2.1.parent.data :=
                not_lt.mp (hpe e2 (by simp))
              have h2d : e2.1.parent.data ≤ a.1.parent.data :=
                not_lt.mp (hpe2 a ha2)
              have h3 : a.1.parent.data = e.1.parent.data := by rw [hap, hep]
              have h4 : e2.1.parent.data = e.1.parent.data :=
                le_antisymm (h3 ▸ h2d) h1
              exact h2 ((stringData_inj _ _ h4).trans hep)
          rw [hnone] at hy
          simp at hy
    · rw [List.filter_cons_of_neg (by simp [hep])]
      exact ih hct hpt

lemma rowStep_head_le : ∀ (l : List Nat) (a : Nat), List.Chain' rowStep (a :: l) →
    ∀ x ∈ a :: l, a ≤ x := by
  intro l
  induction l with
  | nil => intro a _ x hx; rw [List.mem_singleton] at hx; omega
  | cons b t ih =>
    intro a hch x hx
    rw [List.chain'_cons] at hch
    obtain ⟨hab, hct⟩ := hch
    rcases List.mem_cons.mp hx with rfl | hx2
    · exact le_refl x
    · have hbx := ih b hct x hx2
      unfold rowStep at hab
      omega

lemma rowStep_ivt : ∀ (l : List Nat), List.Chain' rowStep l →
    ∀ x ∈ l, ∀ y ∈ l, ∀ r, x ≤ r → r ≤ y → r ∈ l := by
  intro l
  induction l with
  | nil => intro _ x hx; simp at hx
  | cons a t ih =>
    intro hch x hx y hy r hxr hry
    have hax : a ≤ x := rowStep_head_le t a hch x hx
    rw [List.chain'_cons'] at hch
    obtain ⟨hhd, hct⟩ := hch
    rcases List.mem_cons.mp hy with hya | hy2
    · have : r = a := by omega
      rw [this]; exact List.mem_cons_self a t
    · cases t with
      | nil => simp at hy2
      | cons b t2 =>
        have hab : rowStep a b := hhd b (by simp)
        by_cases hrb : b ≤ r
        · exact List.mem_cons_of_mem a (ih hct b (by simp) y hy2 r hrb hry)
        · unfold rowStep at hab
          have : r = a := by omega
          rw [this]; exact List.mem_cons_self a _

/-- C4: with `calculatedMaxChildren >= 1`, no two records sharing a
parent receive the same `(row, index)` pair (in fact all assigned pairs
are distinct), and the row numbers assigned to one parent's records form
a contiguous range: any row between two of them is also assigned to that
parent. -/
theorem layout_no_pair_reuse_and_contiguous_rows (m : Nat) (hm : 1 ≤ m)
    (json : List Child) :
    List.Pairwise (fun a b => a.1.parent = b.1.parent → a.2 ≠ b.2)
      (layoutRecords m json) ∧
    ∀ p r1 r2 r, r1 ∈ rowsOfParent m json p → r2 ∈ rowsOfParent m json p →
      r1 ≤ r → r ≤ r2 → r ∈ rowsOfParent m json p := by
  constructor
  · refine (layout_pairwise_lex m json).imp ?_
    intro a b hab _ heq
    unfold lexRel at hab
    rw [heq] at hab
    omega
  · intro p r1 r2 r h1 h2 hr1 hr2
    have hch := chain_rows_filter p (layoutRecords m json) (layout_chain m json)
      (layout_pairwise_parent m json)
    exact rowStep_ivt _ hch r1 h1 r2 h2 r hr1 hr2

/-- Witness for C4 at a concrete input: four records, two parents,
`calculatedMaxChildren = 2` (parent A wraps onto a second row). -/
theorem layout_no_pair_reuse_witness :
    List.Pairwise (fun a b => a.1.parent = b.1.parent → a.2 ≠ b.2)
      (layoutRecords 2 [⟨"A", 0, 0⟩, ⟨"A", 1, 0⟩, ⟨"A", 2, 0⟩, ⟨"B", 3, 1⟩]) ∧
    ∀ p r1 r2 r,
      r1 ∈ rowsOfParent 2 [⟨"A", 0, 0⟩, ⟨"A", 1, 0⟩, ⟨"A", 2, 0⟩, ⟨"B", 3, 1⟩] p →
      r2 ∈ rowsOfParent 2 [⟨"A", 0, 0⟩, ⟨"A", 1, 0⟩, ⟨"A", 2, 0⟩, ⟨"B", 3, 1⟩] p →
      r1 ≤ r → r ≤ r2 →
      r ∈ rowsOfParent 2 [⟨"A", 0, 0⟩, ⟨"A", 1, 0⟩, ⟨"A", 2, 0⟩, ⟨"B", 3, 1⟩] p :=
  layout_no_pair_reuse_and_contiguous_rows 2 (by decide) _

/-! ## The sort's effect on the caller's array, and order (in)dependence -/

lemma sortByParent_perm (json : List Child) : (sortByParent json).Perm json :=
  List.perm_insertionSort parentLe json

/-- C10: `generate` sorts the caller-supplied records array in place by
parent before annotating it: after `generate` returns, the caller's
array object holds the same records reordered into parent-sorted order
(not its original order), each record carrying the `row` and `index`
written onto it. -/
theorem generate_sorts_caller_array (m : Nat) (json : List Child) :
    (layoutRecords m json).map Prod.fst = sortByParent json ∧
    (sortByParent json).Perm json ∧
    List.Sorted parentLe (sortByParent json) ∧
    (layoutRecords m json).length = json.length := by
  refine ⟨assignAll_map_fst m (sortByParent json) initState, sortByParent_perm json,
    sortByParent_pairwise json, ?_⟩
  have h1 := congrArg List.length (assignAll_map_fst m (sortByParent json) initState)
  rw [List.length_map] at h1
  show (assignAll m initState (sortByParent json)).length = json.length
  rw [h1]
  exact (sortByParent_perm json).length_eq

lemma assignAll_parents_eq (m : Nat) :
    ∀ (cs1 cs2 : List Child) (s : LayoutState),
      cs1.map Child.parent = cs2.map Child.parent →
      (assignAll m s cs1).map (fun e => (e.1.parent, e.2)) =
      (assignAll m s cs2).map (fun e => (e.1.parent, e.2)) := by
  intro cs1
  induction cs1 with
  | nil =>
    intro cs2 s h
    cases cs2 with
    | nil => rfl
    | cons c t => simp at h
  | cons c t ih =>
    intro cs2 s h
    cases cs2 with
    | nil => simp at h
    | cons c2 t2 =>
      simp only [List.map_cons, List.cons.injEq] at h
      obtain ⟨hp, ht⟩ := h
      simp only [assignAll, List.map_cons]
      rw [hp]
      exact congrArg (List.cons _) (ih t2 (assignStep m s c2.parent).2 ht)

lemma sortByParent_parents_sorted (json : List Child) :
    ((sortByParent json).map Child.parent).Pairwise
      (fun a b : String => a.data ≤ b.data) := by
  rw [List.pairwise_map]
  exact (sortByParent_pairwise json).imp (fun h => not_lt.mp h)

/-- C5 (counterexample): the claim fails as stated. Two distinct records
share parent "A"; with the stable parent sort, swapping the input order
swaps which record is assigned index 1 and which index 2, so the
`(row, index)` assignment of a given record is not independent of the
input ordering. -/
theorem layout_order_dependent_cex :
    ([⟨"A", 0, 0⟩, ⟨"A", 1, 0⟩] : List Child).Perm [⟨"A", 1, 0⟩, ⟨"A", 0, 0⟩] ∧
    assignOf 2 [⟨"A", 0, 0⟩, ⟨"A", 1, 0⟩] ⟨"A", 0, 0⟩ = some (1, 1) ∧
    assignOf 2 [⟨"A", 1, 0⟩, ⟨"A", 0, 0⟩] ⟨"A", 0, 0⟩ = some (1, 2) :=
  ⟨List.Perm.swap _ _ _, rfl, rfl⟩

/-- C5 (amended): the sort normalizes the input order only up to the
parent sequence. Any two orderings of one multiset of records yield the
same sequence of (parent, (row, index)) assignments — in particular,
laying out the same input set twice gives the same result, and a record
whose parent is unique receives the same pair under any ordering — but
two distinct records sharing a parent may exchange their pairs when the
input order changes. -/
theorem layout_perm_parent_assignments (m : Nat) (json1 json2 : List Child)
    (h : json1.Perm json2) :
    (layoutRecords m json1).map (fun e => (e.1.parent, e.2)) =
    (layoutRecords m json2).map (fun e => (e.1.parent, e.2)) := by
  apply assignAll_parents_eq
  haveI : IsAntisymm String (fun a b : String => a.data ≤ b.data) :=
    ⟨fun a b h1 h2 => stringData_inj a b (le_antisymm h1 h2)⟩
  apply List.eq_of_perm_of_sorted (r := fun a b : String => a.data ≤ b.data)
  · exact ((sortByParent_perm json1).map Child.parent).trans
      ((h.map Child.parent).trans ((sortByParent_perm json2).map Child.parent).symm)
  · exact sortByParent_parents_sorted json1
  · exact sortByParent_parents_sorted json2

/-- Witness for the amended C5 at a concrete pair of orderings. -/
theorem layout_perm_parent_assignments_witness :
    (layoutRecords 2 [⟨"B", 1, 1⟩, ⟨"A", 0, 0⟩]).map (fun e => (e.1.parent, e.2)) =
    (layoutRecords 2 [⟨"A", 0, 0⟩, ⟨"B", 1, 1⟩]).map (fun e => (e.1.parent, e.2)) :=
  layout_perm_parent_assignments 2 _ _ (List.Perm.swap _ _ _)

end RelGraph
